import Mathlib

/-!
Verification development for the dbt-fusion selector subsystem.

This file embeds, in Lean 4, the selection-expression data model, the
evaluator of `src/REFERENCE_IMPLEMENTATION.rs`, and the YAML-selector
parser of `src/crates/dbt-selector-parser/src/parser.rs`, and proves the
documented algebraic laws of exclusion against these embeddings.

Rust `BTreeSet<String>` results are embedded as `Finset String`;
`retain(|id| !m.contains(id))` is set difference and
`retain(|id| m.contains(id))` is intersection.  Ordered maps
(`BTreeMap`) are embedded as association lists whose order stands for
the map's key order.
-/

namespace DbtSelector

/-- Method names used by `Node::matches_criteria`.  The reference
implementation matches `Tag`, `Fqn`, `Path`, `ResourceType` and
`Package` and maps every other method to `false`; the remaining
variants of the Rust enum are collapsed into `OtherMethod`. -/
inductive MethodName where
  | Tag
  | Fqn
  | Path
  | ResourceType
  | Package
  | OtherMethod (name : String)
deriving Repr, DecidableEq

/-- Indirect-selection modes (`IndirectSelection` in dbt-common).  Only
the default (`Eager`) and `Cautious` appear in the sources under
verification; the exact set of variants is irrelevant to the claims. -/
inductive IndirectSelection where
  | Eager
  | Cautious
  | Buildable
  | Empty
deriving Repr, DecidableEq

/-- Rust `IndirectSelection::default()` is `Eager`. -/
def IndirectSelection.defaultMode : IndirectSelection := IndirectSelection.Eager

/-- The sentinel `u32::MAX` used for "unbounded depth" by the parser's
depth-flag normalisation. -/
def u32MAX : Nat := 4294967295

/-- The payload of an `Atom`, `SelectionCriteria`, parameterised by the
type of the nested exclude expression so that `SelectExpression` can be
declared as a nested inductive.  Field order and names follow the
arguments of `SelectionCriteria::new` as called by the sources. -/
structure SelectionCriteriaF (α : Type) where
  method : MethodName
  method_args : List String
  value : String
  childrens_parents : Bool
  parents_depth : Option Nat
  children_depth : Option Nat
  indirect : Option IndirectSelection
  exclude : Option α
deriving Repr

/-- The canonical selection-expression tree (`SelectExpression` in
dbt-common): a tagged union of atoms, intersections, unions and the
exclusion marker. -/
inductive SelectExpression where
  | Atom (criteria : SelectionCriteriaF SelectExpression)
  | And (exprs : List SelectExpression)
  | Or (exprs : List SelectExpression)
  | Exclude (inner : SelectExpression)
deriving Repr

/-- Rust `SelectionCriteria` proper: the atom payload whose nested exclude is
itself a `SelectExpression`. -/
abbrev SelectionCriteria := SelectionCriteriaF SelectExpression

/-- The node records of the reference implementation. -/
structure Node where
  unique_id : String
  fqn : List String
  tags : List String
  resource_type : String
  path : String
  package_name : String
deriving Repr, DecidableEq

/-- Split a character list at every occurrence of a separator, as
Rust's `str::split(char)` does: `"a*b"` gives `["a", "b"]`, `"*"` gives
`["", ""]`. -/
def splitOnChar (sep : Char) : List Char → List (List Char)
  | [] => [[]]
  | c :: cs =>
      if c = sep then
        [] :: splitOnChar sep cs
      else
        match splitOnChar sep cs with
        | [] => [[c]]
        | part :: parts => (c :: part) :: parts

/-- Rust `Node::matches_pattern`: single-`*` glob support; a pattern that
does not split into exactly two parts around `*` falls back to string
equality.  String containment, splitting and prefix/suffix tests are
carried out on the underlying character lists. -/
def Node.matches_pattern (value pattern : String) : Bool :=
  if pattern.data.contains '*' then
    match splitOnChar '*' pattern.data with
    | [pre, suf] => pre.isPrefixOf value.data && List.isSuffixOf suf value.data
    | _ => value == pattern
  else
    value == pattern

/-- Rust `Node::matches_criteria`: dispatch on the criteria's method; methods
not understood by the reference implementation match nothing. -/
def Node.matches_criteria (node : Node) (criteria : SelectionCriteria) : Bool :=
  match criteria.method with
  | .Tag => node.tags.any (fun t => Node.matches_pattern t criteria.value)
  | .Fqn => Node.matches_pattern (String.intercalate "." node.fqn) criteria.value
  | .Path => Node.matches_pattern node.path criteria.value
  | .ResourceType => node.resource_type == criteria.value
  | .Package => node.package_name == criteria.value
  | .OtherMethod _ => false

/-- The direct matches of an atom: the identifiers of all nodes
satisfying the criteria (the first loop of `evaluate_atom`). -/
def directMatches (criteria : SelectionCriteria) (all_nodes : List Node) : Finset String :=
  ((all_nodes.filter (fun n => n.matches_criteria criteria)).map Node.unique_id).toFinset

/-- The per-operand step of `evaluate_and`'s loop: an `Exclude` operand
removes its matches from the running result, any other operand
intersects. -/
def and_step (result : Finset String) (expr : SelectExpression) (matched : Finset String) :
    Finset String :=
  match expr with
  | .Exclude _ => result \ matched
  | _ => result ∩ matched

mutual

/-- Rust `evaluate_select_expression`: dispatch on the expression variant.
The `And`/`Or`/`Exclude` bodies are written inline (they are the bodies
of `evaluate_and`, `evaluate_or` and `evaluate_exclude`; see the
dispatch lemmas below). -/
def evaluate_select_expression (expr : SelectExpression) (all_nodes : List Node) :
    Finset String :=
  match expr with
  | .Atom criteria => evaluate_atom criteria all_nodes
  | .And [] => ∅
  | .And (e :: rest) => and_fold (evaluate_select_expression e all_nodes) rest all_nodes
  | .Or exprs => or_fold ∅ exprs all_nodes
  | .Exclude inner_expr => evaluate_select_expression inner_expr all_nodes

/-- Rust `evaluate_atom`: collect direct matches, then unconditionally
subtract the evaluation of the nested exclude when present. -/
def evaluate_atom (criteria : SelectionCriteria) (all_nodes : List Node) : Finset String :=
  match criteria with
  | ⟨m, args, v, cp, pd, cd, ind, some nested_exclude⟩ =>
      directMatches ⟨m, args, v, cp, pd, cd, ind, some nested_exclude⟩ all_nodes \
        evaluate_select_expression nested_exclude all_nodes
  | ⟨m, args, v, cp, pd, cd, ind, none⟩ =>
      directMatches ⟨m, args, v, cp, pd, cd, ind, none⟩ all_nodes

/-- The loop of `evaluate_and` over the operands after the first. -/
def and_fold (result : Finset String) (exprs : List SelectExpression) (all_nodes : List Node) :
    Finset String :=
  match exprs with
  | [] => result
  | expr :: rest =>
      and_fold (and_step result expr (evaluate_select_expression expr all_nodes)) rest all_nodes

/-- The loop of `evaluate_or`: left fold of union starting from the
empty set. -/
def or_fold (result : Finset String) (exprs : List SelectExpression) (all_nodes : List Node) :
    Finset String :=
  match exprs with
  | [] => result
  | expr :: rest => or_fold (result ∪ evaluate_select_expression expr all_nodes) rest all_nodes

end

/-- Rust `evaluate_and`: empty list gives the empty set, otherwise seed with
the first operand and fold the rest. -/
def evaluate_and (exprs : List SelectExpression) (all_nodes : List Node) : Finset String :=
  match exprs with
  | [] => ∅
  | e :: rest => and_fold (evaluate_select_expression e all_nodes) rest all_nodes

/-- Rust `evaluate_or`: fold union over all operands from the empty set. -/
def evaluate_or (exprs : List SelectExpression) (all_nodes : List Node) : Finset String :=
  or_fold ∅ exprs all_nodes

/-- Rust `evaluate_exclude`: simply evaluate the inner expression; the caller
(`evaluate_and`) is the one that subtracts. -/
def evaluate_exclude (inner_expr : SelectExpression) (all_nodes : List Node) : Finset String :=
  evaluate_select_expression inner_expr all_nodes

/-! ## Concrete fixtures (mirroring the Rust test module) -/

def bronze_1 : Node :=
  ⟨"model.test.bronze_1", ["test", "bronze_1"], ["production"], "model",
    "models/test_exclude/bronze/bronze_1.sql", "test"⟩

def bronze_2 : Node :=
  ⟨"model.test.bronze_2", ["test", "bronze_2"], ["production"], "model",
    "models/test_exclude/bronze/bronze_2.sql", "test"⟩

def bronze_3 : Node :=
  ⟨"model.test.bronze_3", ["test", "bronze_3"], ["production", "deprecated"], "model",
    "models/test_exclude/bronze/bronze_3.sql", "test"⟩

def testNodes : List Node := [bronze_1, bronze_2, bronze_3]

def pathBronzeAtom : SelectExpression :=
  .Atom ⟨.Path, [], "models/test_exclude/bronze/bronze_*", false, none, none, none, none⟩

def pathTypoAtom : SelectExpression :=
  .Atom ⟨.Path, [], "models/test_exclude/bronse/no_such_*", false, none, none, none, none⟩

def pathAllBronzeAtom : SelectExpression :=
  .Atom ⟨.Path, [], "models/test_exclude/bronze/*", false, none, none, none, none⟩

def tagProductionAtom : SelectExpression :=
  .Atom ⟨.Tag, [], "production", false, none, none, none, none⟩

def tagDeprecatedAtom : SelectExpression :=
  .Atom ⟨.Tag, [], "deprecated", false, none, none, none, none⟩

/-! ## Surface selector syntax (the dbt-schemas types used by the
parser), parameterised by the sub-definition type so that
`SelectorDefinitionValue` can be declared as a nested inductive. -/

/-- Rust `CompositeKind`: a `union` or `intersection` over sub-definitions. -/
inductive CompositeKindF (α : Type) where
  | Union (vals : List α)
  | Intersection (vals : List α)
deriving Repr

/-- Rust `CompositeExpr`: an ordered map from operator key to kind; the
parser only looks at the first entry. -/
structure CompositeExprF (α : Type) where
  kind : List (String × CompositeKindF α)
deriving Repr

/-- Rust `MethodAtomExpr`: a structured method atom with graph-relative
flags and an optional attached exclude list. -/
structure MethodAtomExprF (α : Type) where
  method : String
  value : String
  childrens_parents : Bool
  parents : Bool
  children : Bool
  parents_depth : Option Nat
  children_depth : Option Nat
  indirect_selection : Option IndirectSelection
  exclude : Option (List α)
deriving Repr

/-- Rust `ExcludeAtomExpr`: a standalone exclude block naming
sub-definitions. -/
structure ExcludeAtomExprF (α : Type) where
  exclude : List α
deriving Repr

/-- Rust `AtomExpr`: a structured method atom, a single-entry method-value
shorthand map, or a standalone exclude block. -/
inductive AtomExprF (α : Type) where
  | Method (expr : MethodAtomExprF α)
  | MethodKey (method_value : List (String × String))
  | Exclude (expr : ExcludeAtomExprF α)
deriving Repr

/-- Rust `SelectorExpr`: composite or atom shape. -/
inductive SelectorExprF (α : Type) where
  | Composite (comp : CompositeExprF α)
  | Atom (atom : AtomExprF α)
deriving Repr

/-- Rust `SelectorDefinitionValue`: a bare string or a full structured
expression. -/
inductive SelectorDefinitionValue where
  | Str (s : String)
  | Full (expr : SelectorExprF SelectorDefinitionValue)
deriving Repr

abbrev CompositeKind := CompositeKindF SelectorDefinitionValue
abbrev CompositeExpr := CompositeExprF SelectorDefinitionValue
abbrev MethodAtomExpr := MethodAtomExprF SelectorDefinitionValue
abbrev ExcludeAtomExpr := ExcludeAtomExprF SelectorDefinitionValue
abbrev AtomExpr := AtomExprF SelectorDefinitionValue
abbrev SelectorExpr := SelectorExprF SelectorDefinitionValue

/-- A named selector registry entry (`SelectorDefinition`). -/
structure SelectorDefinition where
  name : String
  description : Option String
  default : Option Bool
  definition : SelectorDefinitionValue
deriving Repr

/-- The single "selection error" kind with a human-readable message
(`ErrorCode::SelectorError` plus the formatted message). -/
inductive SelectorError where
  | selectorError (msg : String)
deriving Repr, DecidableEq

/-- The parser state: the named-selector registry plus the two external
capabilities it consumes — `parse_model_specifiers` for bare strings
and the method-name resolver (`MethodName::from_str` with the
`MethodName::default_for` fallback). -/
structure SelectorParser where
  defs : List (String × SelectorDefinition)
  resolveString : String → Except SelectorError SelectExpression
  methodFromStr : String → Option MethodName
  methodDefaultFor : String → MethodName

/-- Registry lookup by exact name (`BTreeMap::get`). -/
def lookupDef : List (String × SelectorDefinition) → String → Option SelectorDefinition
  | [], _ => none
  | (k, d) :: rest, name => if k = name then some d else lookupDef rest name

/-- Remove a name from the registry.  This realises the "currently
resolving" set for named-selector recursion: the source performs a
plain recursive call with the full registry, which diverges on a
reference cycle; threading the shrinking registry is behaviour-
identical on acyclic registries and makes a cycle fail fast with the
unknown-selector error. -/
def removeDef : List (String × SelectorDefinition) → String → List (String × SelectorDefinition)
  | [], _ => []
  | (k, d) :: rest, name =>
      if k = name then removeDef rest name else (k, d) :: removeDef rest name

theorem removeDef_length_le (defs : List (String × SelectorDefinition)) (name : String) :
    (removeDef defs name).length ≤ defs.length := by
  induction defs with
  | nil => simp [removeDef]
  | cons kd rest ih =>
      obtain ⟨k, dd⟩ := kd
      rw [removeDef]
      split <;> simp only [List.length_cons] <;> omega

theorem removeDef_length_lt (defs : List (String × SelectorDefinition)) (name : String)
    (d : SelectorDefinition) (h : lookupDef defs name = some d) :
    (removeDef defs name).length < defs.length := by
  induction defs with
  | nil => cases h
  | cons kd rest ih =>
      obtain ⟨k, dd⟩ := kd
      rw [lookupDef] at h
      rw [removeDef]
      by_cases hk : k = name
      · rw [if_pos hk]
        have := removeDef_length_le rest name
        simp only [List.length_cons]
        omega
      · rw [if_neg hk] at h
        rw [if_neg hk]
        have := ih h
        simp only [List.length_cons]
        omega

/-- Split a method string at every dot, as Rust's `split('.')` does,
carried out on the underlying character list. -/
def split_method (method : String) : List String :=
  (splitOnChar '.' method.data).map (fun cs => ⟨cs⟩)

/-- Rust `resolve_method`: split the dotted method head, resolve it through
`MethodName::from_str`, and fall back to `MethodName::default_for` on
the value when the head is unrecognised; the dotted suffix becomes the
method arguments. -/
def resolve_method (p : SelectorParser) (method : String) (value : String) :
    MethodName × List String :=
  match split_method method with
  | [] => (p.methodDefaultFor value, [])
  | head :: rest => ((p.methodFromStr head).getD (p.methodDefaultFor value), rest)

/-- The `match exprs.len()` of the composite-exclude hoisting: an empty
exclude list is an error, a single parsed entry stands alone, several
are combined with `Or`. -/
def exclude_expression_of (exprs : List SelectExpression) :
    Except SelectorError SelectExpression :=
  match exprs with
  | [] => .error (.selectorError "Empty exclude list")
  | [e] => .ok e
  | _ => .ok (.Or exprs)

/-- Combine multiple hoisted excludes (`Or` when more than one) and
attach them to the include expression through an outer `And` —
regardless of the composite's own operator.  No excludes: return the
include expression unchanged. -/
def composite_result (include_expr : SelectExpression)
    (exclude_exprs : List SelectExpression) : Except SelectorError SelectExpression :=
  if exclude_exprs.isEmpty then
    .ok include_expr
  else
    let combined_exclude := match exclude_exprs with
      | [e] => e
      | _ => SelectExpression.Or exclude_exprs
    .ok (.And [include_expr, .Exclude combined_exclude])

mutual

/-- Rust `SelectorParser::parse_named`: registry lookup, then recursively
parse the definition (with the shrinking-registry cycle guard, see
`removeDef`). -/
def parse_named (p : SelectorParser) (name : String) : Except SelectorError SelectExpression :=
  match h : lookupDef p.defs name with
  | none => .error (.selectorError ("Unknown selector `" ++ name ++ "`"))
  | some def_ =>
      parse_definition
        ⟨removeDef p.defs name, p.resolveString, p.methodFromStr, p.methodDefaultFor⟩
        def_.definition
termination_by (p.defs.length, 0, 0)
decreasing_by
  simp_wf
  exact Prod.Lex.left _ _ (removeDef_length_lt p.defs name def_ h)

/-- Rust `SelectorParser::parse_definition`: bare strings go to the external
resolver, full expressions to `parse_expr`. -/
def parse_definition (p : SelectorParser) (d : SelectorDefinitionValue) :
    Except SelectorError SelectExpression :=
  match d with
  | .Str s => p.resolveString s
  | .Full expr => parse_expr p expr
termination_by (p.defs.length, sizeOf d, 0)

/-- Rust `SelectorParser::parse_expr`. -/
def parse_expr (p : SelectorParser) (e : SelectorExpr) : Except SelectorError SelectExpression :=
  match e with
  | .Composite comp => parse_composite p comp
  | .Atom a => parse_atom p a
termination_by (p.defs.length, sizeOf e, 0)
decreasing_by
  · decreasing_tactic
  · simp_wf
    apply Prod.Lex.right
    apply Prod.Lex.left
    rcases a with me | mv | ex
    · obtain ⟨m, v, cp, pa, ch, pdep, cdep, ind, excl⟩ := me
      simp
      omega
    · simp
    · simp

/-- Rust `SelectorParser::parse_composite`: take the first operator entry
(empty map is an error), partition the sub-definitions into includes
and hoisted excludes, build `Or`/`And` over the includes, and attach
the combined exclude if any. -/
def parse_composite (p : SelectorParser) (comp : CompositeExpr) :
    Except SelectorError SelectExpression :=
  match comp with
  | ⟨[]⟩ => .error (.selectorError "Empty composite expression")
  | ⟨(_k, .Union vals) :: _rest⟩ => do
      let (includes, exclude_exprs) ← parse_values p vals
      composite_result (SelectExpression.Or includes) exclude_exprs
  | ⟨(_k, .Intersection vals) :: _rest⟩ => do
      let (includes, exclude_exprs) ← parse_values p vals
      composite_result (SelectExpression.And includes) exclude_exprs
termination_by (p.defs.length, sizeOf comp, 0)

/-- The loop of `parse_composite` over a composite's sub-definitions:
a standalone exclude block is hoisted (empty exclude list is an error,
several entries are combined with `Or`), any other sub-definition is
parsed as an include. -/
def parse_values (p : SelectorParser) (values : List SelectorDefinitionValue) :
    Except SelectorError (List SelectExpression × List SelectExpression) :=
  match values with
  | [] => .ok ([], [])
  | .Full (.Atom (.Exclude ⟨exdefs⟩)) :: rest => do
      let exprs ← collect_definition_includes p exdefs
      let exclude_expression ← exclude_expression_of exprs
      let (incs, excs) ← parse_values p rest
      .ok (incs, exclude_expression :: excs)
  | value :: rest => do
      let resolved ← parse_definition p value
      let (incs, excs) ← parse_values p rest
      .ok (resolved :: incs, excs)
termination_by (p.defs.length, sizeOf values, 0)

/-- Rust `SelectorParser::collect_definition_includes`: parse every
sub-definition, failing on the first error. -/
def collect_definition_includes (p : SelectorParser) (ds : List SelectorDefinitionValue) :
    Except SelectorError (List SelectExpression) :=
  match ds with
  | [] => .ok []
  | d :: rest => do
      let e ← parse_definition p d
      let es ← collect_definition_includes p rest
      .ok (e :: es)
termination_by (p.defs.length, sizeOf ds, 0)

/-- Rust `SelectorParser::parse_atom`: the `selector` method recursively
resolves the referenced selector and returns it as-is (graph-relative
flags and any attached exclude list of the referencing atom are not
consulted; flags additionally trigger a non-fatal warning, see
`selector_inheritance_warns`); any other method goes through the
method-atom construction; a single-entry method-value map is wrapped
into a method atom with default flags; a standalone exclude block is a
top-level-exclude error. -/
def parse_atom (p : SelectorParser) (a : AtomExpr) : Except SelectorError SelectExpression :=
  match a with
  | .Method expr =>
      if expr.method = "selector" then
        parse_named p expr.value
      else
        method_atom_to_select_expression p expr
  | .MethodKey method_value =>
      match method_value with
      | [(m, v)] =>
          method_atom_to_select_expression p
            ⟨m, v, false, false, false, none, none, some IndirectSelection.defaultMode, none⟩
      | _ => .error (.selectorError "MethodKey must have exactly one key-value pair")
  | .Exclude _ => .error (.selectorError "Top level exclude not allowed in YAML selectors")
termination_by
  (p.defs.length,
    match a with
    | .Method e => sizeOf e.exclude
    | .MethodKey _ => 1
    | .Exclude _ => 0,
    2)
decreasing_by
  · simp_wf
    apply Prod.Lex.right
    apply Prod.Lex.left
    cases expr.exclude <;> simp_arith
  · decreasing_tactic
  · decreasing_tactic

/-- The `AtomExpr::Method` arm of `atom_to_select_expression`: resolve
the method head, normalise the depth flags to the unbounded sentinel,
build the nested exclude expression, and assemble the criteria. -/
def method_atom_to_select_expression (p : SelectorParser) (expr : MethodAtomExpr) :
    Except SelectorError SelectExpression := do
  let (name, args) := resolve_method p expr.method expr.value
  let pd := if expr.parents && expr.parents_depth.isNone then some u32MAX else expr.parents_depth
  let cd := if expr.children && expr.children_depth.isNone then some u32MAX
    else expr.children_depth
  let exclude_expr ← build_nested_exclude p expr.exclude
  .ok (.Atom ⟨name, args, expr.value, expr.childrens_parents, pd, cd, expr.indirect_selection,
    exclude_expr⟩)
termination_by (p.defs.length, sizeOf expr.exclude, 1)

/-- Building the *nested* exclude expression of a method atom: absent
or empty lists produce no nested exclude, a single entry is stored
directly, several entries are combined with `Or`. -/
def build_nested_exclude (p : SelectorParser) (excl : Option (List SelectorDefinitionValue)) :
    Except SelectorError (Option SelectExpression) :=
  match excl with
  | none => .ok none
  | some ds => do
      let exprs ← collect_definition_includes p ds
      match exprs with
      | [] => .ok none
      | [e] => .ok (some e)
      | _ => .ok (some (.Or exprs))
termination_by (p.defs.length, sizeOf excl, 0)

end

/-- Rust `SelectorParser::atom_to_select_expression`.  `parse_atom` only
ever calls it with a `Method` atom, so its recursive work is factored
into `method_atom_to_select_expression`; the `MethodKey` arm is the
direct (non-recursive) construction of the source, and the `Exclude`
arm builds a top-level `Exclude` (rejecting an empty list).  The
`MethodKey` arm of the source `unwrap`s the first entry and would
panic on an empty map; that unreachable case is mapped to an error. -/
def atom_to_select_expression (p : SelectorParser) (atom : AtomExpr) :
    Except SelectorError SelectExpression :=
  match atom with
  | .Method expr => method_atom_to_select_expression p expr
  | .MethodKey method_value =>
      match method_value with
      | (m, v) :: _ =>
          let (name, args) := resolve_method p m v
          .ok (.Atom ⟨name, args, v, false, none, none, some IndirectSelection.defaultMode, none⟩)
      | [] => .error (.selectorError "unreachable: empty MethodKey")
  | .Exclude expr => do
      let exprs ← collect_definition_includes p expr.exclude
      match exprs with
      | [] => .error (.selectorError "Empty exclude list")
      | [e] => .ok (.Exclude e)
      | _ => .ok (.Exclude (.Or exprs))

/-- Whether a composite sub-definition is a standalone exclude block
(the pattern hoisted by `parse_composite`). -/
def is_exclude_value : SelectorDefinitionValue → Bool
  | .Full (.Atom (.Exclude _)) => true
  | _ => false

/-- Whether the `selector`-method arm of `parse_atom` emits the
non-fatal "graph operators are ignored" warning: any graph-relative
flag present on the referencing atom triggers it. -/
def selector_inheritance_warns (expr : MethodAtomExpr) : Bool :=
  expr.childrens_parents || expr.parents || expr.children || expr.parents_depth.isSome
    || expr.children_depth.isSome

/-- A concrete parser fixture: empty registry, a bare-string resolver
that produces a plain Fqn atom (the documented default for plain
values), and a method resolver recognising a few method names. -/
def demoResolveString (s : String) : Except SelectorError SelectExpression :=
  .ok (.Atom ⟨.Fqn, [], s, false, none, none, none, none⟩)

def demoMethodFromStr (s : String) : Option MethodName :=
  if s = "tag" then some .Tag
  else if s = "fqn" then some .Fqn
  else if s = "path" then some .Path
  else none

def demoParser : SelectorParser :=
  ⟨[], demoResolveString, demoMethodFromStr, fun _ => .Fqn⟩

/-- A plain Fqn atom, as produced by `demoResolveString`. -/
def fqnAtom (s : String) : SelectExpression :=
  .Atom ⟨.Fqn, [], s, false, none, none, none, none⟩

/-- A two-level named-selector registry: `level1` references `level2`
through a `selector` atom that also carries a graph flag and an
attached exclude list (both of which inheritance must ignore). -/
def c9MidAtom : MethodAtomExpr :=
  ⟨"selector", "level2", true, false, false, none, none, none, some [.Str "dropped"]⟩

def c9Base : SelectorDefinition := ⟨"level2", none, none, .Str "tag:base"⟩

def c9Mid : SelectorDefinition := ⟨"level1", none, none, .Full (.Atom (.Method c9MidAtom))⟩

def c9Parser : SelectorParser :=
  ⟨[("level1", c9Mid), ("level2", c9Base)], demoResolveString, demoMethodFromStr, fun _ => .Fqn⟩

def c9RefAtom : MethodAtomExpr :=
  ⟨"selector", "level1", true, false, false, none, none, none, some [.Str "extra"]⟩

def c9RefAtomPlain : MethodAtomExpr :=
  ⟨"selector", "level1", false, false, false, none, none, none, none⟩


/-! ## Theorems: dispatch correspondence and helper lemmas -/

theorem evaluate_dispatch_atom (c : SelectionCriteria) (nodes : List Node) :
    evaluate_select_expression (.Atom c) nodes = evaluate_atom c nodes := by
  rw [evaluate_select_expression]

theorem evaluate_dispatch_and (exprs : List SelectExpression) (nodes : List Node) :
    evaluate_select_expression (.And exprs) nodes = evaluate_and exprs nodes := by
  cases exprs <;> rw [evaluate_select_expression] <;> rfl

theorem evaluate_dispatch_or (exprs : List SelectExpression) (nodes : List Node) :
    evaluate_select_expression (.Or exprs) nodes = evaluate_or exprs nodes := by
  rw [evaluate_select_expression]; rfl

theorem evaluate_dispatch_exclude (inner : SelectExpression) (nodes : List Node) :
    evaluate_select_expression (.Exclude inner) nodes = evaluate_exclude inner nodes := by
  rw [evaluate_select_expression]; rfl

/-! ## Helper lemmas about the evaluator -/

theorem and_fold_cons (acc : Finset String) (e : SelectExpression)
    (rest : List SelectExpression) (nodes : List Node) :
    and_fold acc (e :: rest) nodes
      = and_fold (and_step acc e (evaluate_select_expression e nodes)) rest nodes := by
  rw [and_fold]

theorem or_fold_cons (acc : Finset String) (e : SelectExpression)
    (rest : List SelectExpression) (nodes : List Node) :
    or_fold acc (e :: rest) nodes
      = or_fold (acc ∪ evaluate_select_expression e nodes) rest nodes := by
  rw [or_fold]

theorem evaluate_atom_with_exclude (m : MethodName) (args : List String) (v : String)
    (cp : Bool) (pd cd : Option Nat) (ind : Option IndirectSelection)
    (E : SelectExpression) (nodes : List Node) :
    evaluate_atom ⟨m, args, v, cp, pd, cd, ind, some E⟩ nodes
      = directMatches ⟨m, args, v, cp, pd, cd, ind, some E⟩ nodes \
          evaluate_select_expression E nodes := by
  rw [evaluate_atom]

theorem evaluate_atom_subset_direct (c : SelectionCriteria) (nodes : List Node) :
    evaluate_atom c nodes ⊆ directMatches c nodes := by
  obtain ⟨m, args, v, cp, pd, cd, ind, ex⟩ := c
  cases ex with
  | none => rw [evaluate_atom]
  | some E => rw [evaluate_atom]; exact Finset.sdiff_subset

theorem directMatches_subset (c : SelectionCriteria) (nodes : List Node) :
    directMatches c nodes ⊆ (nodes.map Node.unique_id).toFinset := by
  intro id hid
  simp only [directMatches, List.mem_toFinset, List.mem_map, List.mem_filter] at hid ⊢
  obtain ⟨n, ⟨hn, _⟩, hu⟩ := hid
  exact ⟨n, hn, hu⟩

theorem and_fold_subset_acc (nodes : List Node) :
    ∀ (exprs : List SelectExpression) (acc : Finset String), and_fold acc exprs nodes ⊆ acc := by
  intro exprs
  induction exprs with
  | nil => intro acc; rw [and_fold]
  | cons e rest ih =>
      intro acc
      rw [and_fold_cons]
      refine (ih _).trans ?_
      cases e <;> simp [and_step]

theorem or_fold_subset (nodes : List Node) (S : Finset String) :
    ∀ (exprs : List SelectExpression) (acc : Finset String), acc ⊆ S →
      (∀ x ∈ exprs, evaluate_select_expression x nodes ⊆ S) →
      or_fold acc exprs nodes ⊆ S := by
  intro exprs
  induction exprs with
  | nil => intro acc hacc _; rw [or_fold]; exact hacc
  | cons e rest ih =>
      intro acc hacc hall
      rw [or_fold_cons]
      exact ih _ (Finset.union_subset hacc (hall e (by simp)))
        (fun x hx => hall x (by simp [hx]))

theorem or_fold_exclude_middle (X : SelectExpression) (nodes : List Node) :
    ∀ (l₁ : List SelectExpression) (acc : Finset String) (l₂ : List SelectExpression),
      or_fold acc (l₁ ++ .Exclude X :: l₂) nodes = or_fold acc (l₁ ++ X :: l₂) nodes := by
  intro l₁
  induction l₁ with
  | nil =>
      intro acc l₂
      simp only [List.nil_append]
      rw [or_fold_cons, or_fold_cons, evaluate_dispatch_exclude, evaluate_exclude]
  | cons e rest ih =>
      intro acc l₂
      simp only [List.cons_append]
      rw [or_fold_cons, or_fold_cons, ih]

theorem evaluate_subset_node_ids : ∀ (e : SelectExpression) (nodes : List Node),
    evaluate_select_expression e nodes ⊆ (nodes.map Node.unique_id).toFinset
  | .Atom c, nodes => by
      rw [evaluate_dispatch_atom]
      exact (evaluate_atom_subset_direct c nodes).trans (directMatches_subset c nodes)
  | .And [], nodes => by
      rw [evaluate_select_expression]
      exact Finset.empty_subset _
  | .And (x :: rest), nodes => by
      rw [evaluate_select_expression]
      exact (and_fold_subset_acc nodes rest _).trans (evaluate_subset_node_ids x nodes)
  | .Or exprs, nodes => by
      rw [evaluate_select_expression]
      exact or_fold_subset nodes _ exprs ∅ (Finset.empty_subset _)
        (fun x hx => evaluate_subset_node_ids x nodes)
  | .Exclude inner, nodes => by
      rw [evaluate_select_expression]
      exact evaluate_subset_node_ids inner nodes
termination_by e _ => sizeOf e
decreasing_by
  · simp; omega
  · simp
    have := List.sizeOf_lt_of_mem hx
    omega
  · simp

/-! ## Claims about the evaluator -/

/-- C1: for every expression `And([X, Exclude(Y)])` and every node
collection, if evaluating `Y` yields the empty set then the `And`
evaluates to exactly the evaluation of `X` alone; more generally, an
`Exclude` operand whose evaluation is empty leaves the running result
of the `And` loop unchanged. -/
theorem c1_exclude_matches_nothing (X Y : SelectExpression) (nodes : List Node)
    (h : evaluate_select_expression Y nodes = ∅) :
    evaluate_select_expression (.And [X, .Exclude Y]) nodes
      = evaluate_select_expression X nodes
    ∧ ∀ (acc : Finset String) (rest : List SelectExpression),
        and_fold acc (.Exclude Y :: rest) nodes = and_fold acc rest nodes := by
  have hstep : ∀ acc : Finset String,
      and_step acc (.Exclude Y) (evaluate_select_expression (.Exclude Y) nodes) = acc := by
    intro acc
    rw [evaluate_dispatch_exclude]
    simp [and_step, evaluate_exclude, h]
  constructor
  · rw [evaluate_dispatch_and, evaluate_and, and_fold_cons, hstep, and_fold]
  · intro acc rest
    rw [and_fold_cons, hstep]

/-- Witness for C1 at the motivating regression scenario: the exclude
pattern with the `bronse` typo matches nothing, so all three bronze
nodes survive. -/
theorem c1_exclude_matches_nothing_witness :
    evaluate_select_expression pathTypoAtom testNodes = ∅
    ∧ evaluate_select_expression (.And [pathBronzeAtom, .Exclude pathTypoAtom]) testNodes
        = evaluate_select_expression pathBronzeAtom testNodes :=
  ⟨by decide, (c1_exclude_matches_nothing pathBronzeAtom pathTypoAtom testNodes (by decide)).1⟩

/-- C3: a bare `Exclude(X)` — evaluated at the top level, through
`evaluate_exclude`, or as an `Or` operand — denotes exactly the
positive match set of `X`, never a complement; subtraction happens only
in the `And` loop. -/
theorem c3_exclude_is_positive_match_set (X : SelectExpression) (nodes : List Node)
    (l₁ l₂ : List SelectExpression) :
    evaluate_select_expression (.Exclude X) nodes = evaluate_select_expression X nodes
    ∧ evaluate_exclude X nodes = evaluate_select_expression X nodes
    ∧ evaluate_select_expression (.Or (l₁ ++ .Exclude X :: l₂)) nodes
        = evaluate_select_expression (.Or (l₁ ++ X :: l₂)) nodes := by
  refine ⟨by rw [evaluate_select_expression], rfl, ?_⟩
  rw [evaluate_dispatch_or, evaluate_dispatch_or, evaluate_or, evaluate_or,
    or_fold_exclude_middle]

/-- C4: an atom whose criteria carry a nested `exclude` always
evaluates to its direct matches minus the nested exclude's evaluation,
and it contributes exactly that subtracted set in every position:
alone, as an `And` operand, or as an `Or` operand. -/
theorem c4_nested_exclude_unconditional (c : SelectionCriteria) (E : SelectExpression)
    (nodes : List Node) (h : c.exclude = some E) :
    evaluate_atom c nodes
        = directMatches c nodes \ evaluate_select_expression E nodes
    ∧ evaluate_select_expression (.Atom c) nodes
        = directMatches c nodes \ evaluate_select_expression E nodes
    ∧ (∀ (acc : Finset String) (rest : List SelectExpression),
        and_fold acc (.Atom c :: rest) nodes
          = and_fold (acc ∩ (directMatches c nodes \ evaluate_select_expression E nodes))
              rest nodes)
    ∧ (∀ (acc : Finset String) (rest : List SelectExpression),
        or_fold acc (.Atom c :: rest) nodes
          = or_fold (acc ∪ (directMatches c nodes \ evaluate_select_expression E nodes))
              rest nodes) := by
  obtain ⟨m, args, v, cp, pd, cd, ind, ex⟩ := c
  simp only [SelectionCriteriaF.exclude] at h
  subst h
  have hatom := evaluate_atom_with_exclude m args v cp pd cd ind E nodes
  refine ⟨hatom, ?_, ?_, ?_⟩
  · rw [evaluate_dispatch_atom, hatom]
  · intro acc rest
    rw [and_fold_cons, evaluate_dispatch_atom, hatom]
    rfl
  · intro acc rest
    rw [or_fold_cons, evaluate_dispatch_atom, hatom]

/-- Witness for C4: `tag:production` with nested exclude
`tag:deprecated` evaluates to the production nodes minus the deprecated
ones. -/
theorem c4_nested_exclude_unconditional_witness :
    (⟨.Tag, [], "production", false, none, none, none, some tagDeprecatedAtom⟩ :
        SelectionCriteria).exclude = some tagDeprecatedAtom
    ∧ evaluate_atom
        ⟨.Tag, [], "production", false, none, none, none, some tagDeprecatedAtom⟩ testNodes
      = directMatches
          ⟨.Tag, [], "production", false, none, none, none, some tagDeprecatedAtom⟩ testNodes \
          evaluate_select_expression tagDeprecatedAtom testNodes :=
  ⟨rfl, (c4_nested_exclude_unconditional
    ⟨.Tag, [], "production", false, none, none, none, some tagDeprecatedAtom⟩
    tagDeprecatedAtom testNodes rfl).1⟩

/-- C6: if `Y`'s matches are a superset of `X`'s matches, then
`And([X, Exclude(Y)])` evaluates to the empty set. -/
theorem c6_exclude_matches_everything (X Y : SelectExpression) (nodes : List Node)
    (h : evaluate_select_expression X nodes ⊆ evaluate_select_expression Y nodes) :
    evaluate_select_expression (.And [X, .Exclude Y]) nodes = ∅ := by
  rw [evaluate_dispatch_and, evaluate_and, and_fold_cons, and_fold]
  show evaluate_select_expression X nodes \ evaluate_select_expression Y nodes = ∅
  exact Finset.sdiff_eq_empty_iff_subset.mpr h

/-- Witness for C6: excluding `path:models/test_exclude/bronze/*`
from `path:models/test_exclude/bronze/bronze_*` empties the result. -/
theorem c6_exclude_matches_everything_witness :
    evaluate_select_expression pathBronzeAtom testNodes
        ⊆ evaluate_select_expression pathAllBronzeAtom testNodes
    ∧ evaluate_select_expression (.And [pathBronzeAtom, .Exclude pathAllBronzeAtom]) testNodes
        = ∅ :=
  ⟨by decide, c6_exclude_matches_everything pathBronzeAtom pathAllBronzeAtom testNodes
    (by decide)⟩

/-- C8: `And` and `Or` with an empty operand list evaluate to the empty
set (never the universal set), and the structural artifact
`And([Or([]), Exclude(E)])` produced by a composite containing only
exclude entries also evaluates to the empty set. -/
theorem c8_empty_operands (nodes : List Node) (E : SelectExpression) :
    evaluate_select_expression (.And []) nodes = ∅
    ∧ evaluate_select_expression (.Or []) nodes = ∅
    ∧ evaluate_select_expression (.And [.Or [], .Exclude E]) nodes = ∅ := by
  refine ⟨by rw [evaluate_select_expression], by rw [evaluate_select_expression]; rfl, ?_⟩
  rw [evaluate_dispatch_and, evaluate_and, and_fold_cons, and_fold]
  show (or_fold ∅ [] nodes) \ evaluate_select_expression E nodes = ∅
  rw [or_fold]
  exact Finset.empty_sdiff _

/-- C10: every identifier in an evaluation result is the `unique_id` of
some node of the input collection, for all four expression variants. -/
theorem c10_results_within_collection (e : SelectExpression) (nodes : List Node) :
    evaluate_select_expression e nodes ⊆ (nodes.map Node.unique_id).toFinset :=
  evaluate_subset_node_ids e nodes

/-! ## Helper lemmas about the parser -/

theorem except_bind_ok {α β : Type} {x : Except SelectorError α} {f : α → Except SelectorError β}
    {b : β} (h : (x >>= f) = .ok b) : ∃ a, x = .ok a ∧ f a = .ok b := by
  cases x with
  | error e => simp [Bind.bind, Except.bind] at h
  | ok a => exact ⟨a, rfl, by simpa [Bind.bind, Except.bind] using h⟩

theorem evaluate_and_singleton (a : SelectExpression) (nodes : List Node) :
    evaluate_select_expression (.And [a]) nodes = evaluate_select_expression a nodes := by
  rw [evaluate_dispatch_and, evaluate_and, and_fold]

theorem evaluate_or_singleton (a : SelectExpression) (nodes : List Node) :
    evaluate_select_expression (.Or [a]) nodes = evaluate_select_expression a nodes := by
  rw [evaluate_dispatch_or, evaluate_or, or_fold_cons, or_fold]
  exact Finset.empty_union _

theorem evaluate_or_pair (a b : SelectExpression) (nodes : List Node) :
    evaluate_select_expression (.Or [a, b]) nodes
      = evaluate_select_expression a nodes ∪ evaluate_select_expression b nodes := by
  rw [evaluate_dispatch_or, evaluate_or, or_fold_cons, or_fold_cons, or_fold]
  rw [Finset.empty_union]

theorem evaluate_and_exclude_pair (x y : SelectExpression) (nodes : List Node) :
    evaluate_select_expression (.And [x, .Exclude y]) nodes
      = evaluate_select_expression x nodes \ evaluate_select_expression y nodes := by
  rw [evaluate_dispatch_and, evaluate_and, and_fold_cons, and_fold]
  rfl

theorem parse_values_cons_not_exclude (p : SelectorParser) (v : SelectorDefinitionValue)
    (rest : List SelectorDefinitionValue) (hv : is_exclude_value v = false) :
    parse_values p (v :: rest)
      = (do
          let resolved ← parse_definition p v
          let (incs, excs) ← parse_values p rest
          Except.ok (resolved :: incs, excs)) := by
  rcases v with s | e
  · rw [parse_values] <;> simp
  · rcases e with comp | at_
    · rw [parse_values] <;> simp
    · rcases at_ with me | mv | ex
      · rw [parse_values] <;> simp
      · rw [parse_values] <;> simp
      · simp [is_exclude_value] at hv

theorem parse_values_exclude_nonempty :
    ∀ (values : List SelectorDefinitionValue) (p : SelectorParser)
      (incs excs : List SelectExpression),
      parse_values p values = .ok (incs, excs) →
      values.any (fun v => is_exclude_value v) = true → excs ≠ [] := by
  intro values
  induction values with
  | nil => intro p incs excs h hany; simp at hany
  | cons v rest ih =>
      intro p incs excs h hany
      by_cases hv : is_exclude_value v = true
      · rcases v with s | e
        · simp [is_exclude_value] at hv
        rcases e with comp | at_
        · simp [is_exclude_value] at hv
        rcases at_ with me | mv | ex
        · simp [is_exclude_value] at hv
        · simp [is_exclude_value] at hv
        obtain ⟨exdefs⟩ := ex
        rw [parse_values] at h
        obtain ⟨exprs, _, h⟩ := except_bind_ok h
        obtain ⟨excl, _, h⟩ := except_bind_ok h
        obtain ⟨pr, _, h⟩ := except_bind_ok h
        obtain ⟨incs2, excs2⟩ := pr
        simp [Bind.bind, Except.bind] at h
        exact h.2 ▸ List.cons_ne_nil _ _
      · rw [parse_values_cons_not_exclude p v rest (by simpa using hv)] at h
        obtain ⟨a, _, h⟩ := except_bind_ok h
        obtain ⟨pr, hrest, h⟩ := except_bind_ok h
        obtain ⟨incs2, excs2⟩ := pr
        simp only [Except.ok.injEq, Prod.mk.injEq] at h
        have hany2 : rest.any (fun v => is_exclude_value v) = true := by
          rcases List.any_eq_true.mp hany with ⟨x, hx, hxe⟩
          rcases List.mem_cons.mp hx with hx | hx
          · exact absurd (hx ▸ hxe) hv
          · exact List.any_eq_true.mpr ⟨x, hx, hxe⟩
        exact h.2 ▸ ih p incs2 excs2 hrest hany2

theorem parse_values_empty_exclude_fails :
    ∀ (values : List SelectorDefinitionValue) (p : SelectorParser)
      (pr : List SelectExpression × List SelectExpression),
      (SelectorDefinitionValue.Full (.Atom (.Exclude ⟨[]⟩))) ∈ values →
      parse_values p values ≠ .ok pr := by
  intro values
  induction values with
  | nil => intro p pr h; cases h
  | cons v rest ih =>
      intro p pr hmem hok
      rcases List.mem_cons.mp hmem with hv | hv
      · subst hv
        rw [parse_values] at hok
        simp [collect_definition_includes, exclude_expression_of, Bind.bind, Except.bind] at hok
      · by_cases hx : is_exclude_value v = true
        · rcases v with s | e
          · simp [is_exclude_value] at hx
          rcases e with comp | at_
          · simp [is_exclude_value] at hx
          rcases at_ with me | mv | ex
          · simp [is_exclude_value] at hx
          · simp [is_exclude_value] at hx
          obtain ⟨exdefs⟩ := ex
          rw [parse_values] at hok
          obtain ⟨exprs, _, hok⟩ := except_bind_ok hok
          obtain ⟨excl, _, hok⟩ := except_bind_ok hok
          obtain ⟨pr2, hrest, _⟩ := except_bind_ok hok
          exact ih p pr2 hv hrest
        · rw [parse_values_cons_not_exclude p v rest (by simpa using hx)] at hok
          obtain ⟨a, _, hok⟩ := except_bind_ok hok
          obtain ⟨pr2, hrest, _⟩ := except_bind_ok hok
          exact ih p pr2 hv hrest

theorem parse_named_lookup_some (p : SelectorParser) (name : String) (d : SelectorDefinition)
    (h : lookupDef p.defs name = some d) :
    parse_named p name
      = parse_definition
          ⟨removeDef p.defs name, p.resolveString, p.methodFromStr, p.methodDefaultFor⟩
          d.definition := by
  rw [parse_named]
  split
  · rename_i hn
    rw [h] at hn
    cases hn
  · rename_i d2 hs
    rw [h] at hs
    injection hs with hd
    subst hd
    rfl

/-! ## Claims about the parser -/

/-- C2: parsing a composite whose sub-definition list contains at least
one standalone exclude block always returns
`And([include_expr, Exclude(combined)])` — even when the composite's
operator is `union` — and the parse of a union composite
`[A, exclude:[B]]` evaluates to the matches of `A` minus the matches of
`B`. -/
theorem c2_union_exclude_composition (p : SelectorParser) (k k2 : String)
    (op : CompositeKind) (krest krest2 : List (String × CompositeKind)) (r : SelectExpression)
    (A B : SelectorDefinitionValue) (a b : SelectExpression) (nodes : List Node)
    (hvals : (match op with
      | .Union vs => vs
      | .Intersection vs => vs).any (fun v => is_exclude_value v) = true)
    (hok : parse_composite p ⟨(k, op) :: krest⟩ = .ok r)
    (hA : is_exclude_value A = false)
    (hpa : parse_definition p A = .ok a)
    (hpb : parse_definition p B = .ok b) :
    (∃ include_expr combined, r = .And [include_expr, .Exclude combined])
    ∧ parse_composite p ⟨(k2, .Union [A, .Full (.Atom (.Exclude ⟨[B]⟩))]) :: krest2⟩
        = .ok (.And [.Or [a], .Exclude b])
    ∧ evaluate_select_expression (.And [.Or [a], .Exclude b]) nodes
        = evaluate_select_expression a nodes \ evaluate_select_expression b nodes := by
  have partA : ∃ include_expr combined, r = .And [include_expr, .Exclude combined] := by
    rcases op with vs | vs <;>
    · rw [parse_composite] at hok
      obtain ⟨pr, hpv, hok⟩ := except_bind_ok hok
      obtain ⟨incs, excs⟩ := pr
      have hne := parse_values_exclude_nonempty vs p incs excs hpv (by simpa using hvals)
      cases excs with
      | nil => exact absurd rfl hne
      | cons e0 etail =>
          simp [composite_result] at hok
          exact ⟨_, _, hok.symm⟩
  have hv1 : parse_values p [(.Full (.Atom (.Exclude ⟨[B]⟩)) : SelectorDefinitionValue)]
      = .ok ([], [b]) := by
    rw [parse_values]
    simp [collect_definition_includes, parse_values, exclude_expression_of, hpb,
      Bind.bind, Except.bind]
  have hv2 : parse_values p [A, .Full (.Atom (.Exclude ⟨[B]⟩))] = .ok ([a], [b]) := by
    rw [parse_values_cons_not_exclude p A _ hA]
    simp [hpa, hv1, Bind.bind, Except.bind]
  refine ⟨partA, ?_, ?_⟩
  · rw [parse_composite]
    simp [hv2, composite_result, Bind.bind, Except.bind]
  · rw [evaluate_and_exclude_pair, evaluate_or_singleton]

/-- C7: a composite with several standalone exclude blocks combines the
hoisted excludes with `Or`, so for
`intersection: [A, exclude:[B], exclude:[C]]` the effective removal set
is the union of the matches of `B` and of `C`. -/
theorem c7_multiple_excludes_union_of_removals (p : SelectorParser) (k : String)
    (krest : List (String × CompositeKind))
    (A B C : SelectorDefinitionValue) (a b c : SelectExpression) (nodes : List Node)
    (hA : is_exclude_value A = false)
    (hpa : parse_definition p A = .ok a)
    (hpb : parse_definition p B = .ok b)
    (hpc : parse_definition p C = .ok c) :
    parse_composite p
        ⟨(k, .Intersection [A, .Full (.Atom (.Exclude ⟨[B]⟩)), .Full (.Atom (.Exclude ⟨[C]⟩))])
          :: krest⟩
      = .ok (.And [.And [a], .Exclude (.Or [b, c])])
    ∧ evaluate_select_expression (.And [.And [a], .Exclude (.Or [b, c])]) nodes
        = evaluate_select_expression a nodes
            \ (evaluate_select_expression b nodes ∪ evaluate_select_expression c nodes) := by
  have hvC : parse_values p [(.Full (.Atom (.Exclude ⟨[C]⟩)) : SelectorDefinitionValue)]
      = .ok ([], [c]) := by
    rw [parse_values]
    simp [collect_definition_includes, parse_values, exclude_expression_of, hpc,
      Bind.bind, Except.bind]
  have hvBC : parse_values p
      [.Full (.Atom (.Exclude ⟨[B]⟩)), .Full (.Atom (.Exclude ⟨[C]⟩))] = .ok ([], [b, c]) := by
    rw [parse_values]
    simp [collect_definition_includes, exclude_expression_of, hpb, hvC,
      Bind.bind, Except.bind]
  have hvABC : parse_values p
      [A, .Full (.Atom (.Exclude ⟨[B]⟩)), .Full (.Atom (.Exclude ⟨[C]⟩))]
      = .ok ([a], [b, c]) := by
    rw [parse_values_cons_not_exclude p A _ hA]
    simp [hpa, hvBC, Bind.bind, Except.bind]
  constructor
  · rw [parse_composite]
    simp [hvABC, composite_result, Bind.bind, Except.bind]
  · rw [evaluate_and_exclude_pair, evaluate_and_singleton, evaluate_or_pair]

/-- C5 (amended): a hoisted exclude block naming zero sub-definitions
inside a composite fails — with exactly the "Empty exclude list"
selection-syntax error when it is the first sub-definition, and in any
position the composite never parses successfully — under both
operators; whereas an *empty exclude list attached to a method atom*
does not fail: the atom parses successfully with no nested exclude. -/
theorem c5_empty_exclude_handling (p : SelectorParser) (k : String)
    (krest : List (String × CompositeKind)) (vrest : List SelectorDefinitionValue)
    (e : MethodAtomExpr) (hm : e.method ≠ "selector") (hex : e.exclude = some []) :
    parse_composite p ⟨(k, .Union (.Full (.Atom (.Exclude ⟨[]⟩)) :: vrest)) :: krest⟩
        = .error (.selectorError "Empty exclude list")
    ∧ parse_composite p ⟨(k, .Intersection (.Full (.Atom (.Exclude ⟨[]⟩)) :: vrest)) :: krest⟩
        = .error (.selectorError "Empty exclude list")
    ∧ (∀ (op : CompositeKind) (r : SelectExpression),
        (SelectorDefinitionValue.Full (.Atom (.Exclude ⟨[]⟩)))
          ∈ (match op with | .Union vs => vs | .Intersection vs => vs) →
        parse_composite p ⟨(k, op) :: krest⟩ ≠ .ok r)
    ∧ ∃ crit : SelectionCriteria,
        parse_atom p (.Method e) = .ok (.Atom crit) ∧ crit.exclude = none := by
  have hpv : parse_values p (.Full (.Atom (.Exclude ⟨[]⟩)) :: vrest)
      = .error (.selectorError "Empty exclude list") := by
    rw [parse_values]
    simp [collect_definition_includes, exclude_expression_of, Bind.bind, Except.bind]
  refine ⟨?_, ?_, ?_, ?_⟩
  · rw [parse_composite]
    simp [hpv, Bind.bind, Except.bind]
  · rw [parse_composite]
    simp [hpv, Bind.bind, Except.bind]
  · intro op r hmem hok2
    rcases op with vs | vs <;>
    · rw [parse_composite] at hok2
      obtain ⟨pr, hpvs, _⟩ := except_bind_ok hok2
      exact parse_values_empty_exclude_fails vs p pr (by simpa using hmem) hpvs
  · rw [parse_atom, if_neg hm]
    refine ⟨⟨(resolve_method p e.method e.value).1, (resolve_method p e.method e.value).2,
      e.value, e.childrens_parents,
      (if e.parents && e.parents_depth.isNone then some u32MAX else e.parents_depth),
      (if e.children && e.children_depth.isNone then some u32MAX else e.children_depth),
      e.indirect_selection, none⟩, ?_, rfl⟩
    rw [method_atom_to_select_expression]
    simp [hex, build_nested_exclude, collect_definition_includes, Bind.bind, Except.bind]

/-- Counterexample to C5 as stated: an exclude list naming zero
sub-definitions attached to a method atom parses *successfully* — to
the atom with no nested exclude — instead of failing with the
"Empty exclude list" error. -/
theorem c5_counterexample_empty_atom_exclude_parses :
    parse_atom demoParser
        (.Method ⟨"tag", "nightly", false, false, false, none, none, none, some []⟩)
      = .ok (.Atom ⟨.Tag, [], "nightly", false, none, none, none, none⟩) := by
  have hrm : resolve_method demoParser "tag" "nightly" = (.Tag, []) := rfl
  rw [parse_atom, if_neg (by decide)]
  rw [method_atom_to_select_expression]
  simp [hrm, build_nested_exclude, collect_definition_includes, Bind.bind, Except.bind]

/-- C9: a `selector`-method atom resolves to exactly the referenced
definition's parse: graph-relative flags and any attached exclude list
on the referencing atom do not influence the result (graph flags merely
raise the non-fatal warning), for one and two levels of named-selector
nesting.  `parse_named` threads the shrinking registry (the cycle
guard), so the inherited parse is taken over the registry without the
already-resolved names. -/
theorem c9_selector_inheritance_identity (p : SelectorParser) (e e2 e1 : MethodAtomExpr)
    (D1 D2 : SelectorDefinition)
    (hsel : e.method = "selector")
    (hsel2 : e2.method = "selector") (hval2 : e2.value = e.value)
    (hflag : e.childrens_parents = true ∨ e.parents = true ∨ e.children = true
      ∨ e.parents_depth.isSome = true ∨ e.children_depth.isSome = true)
    (hD1 : lookupDef p.defs e.value = some D1)
    (hD1def : D1.definition = .Full (.Atom (.Method e1)))
    (hsel1 : e1.method = "selector")
    (hD2 : lookupDef (removeDef p.defs e.value) e1.value = some D2) :
    parse_atom p (.Method e) = parse_named p e.value
    ∧ parse_atom p (.Method e2) = parse_atom p (.Method e)
    ∧ selector_inheritance_warns e = true
    ∧ parse_named p e.value
        = parse_definition
            ⟨removeDef p.defs e.value, p.resolveString, p.methodFromStr, p.methodDefaultFor⟩
            D1.definition
    ∧ parse_named p e.value
        = parse_definition
            ⟨removeDef (removeDef p.defs e.value) e1.value, p.resolveString, p.methodFromStr,
              p.methodDefaultFor⟩
            D2.definition := by
  have h1 : parse_atom p (.Method e) = parse_named p e.value := by
    rw [parse_atom, if_pos hsel]
  have hlevel1 : parse_named p e.value
      = parse_definition
          ⟨removeDef p.defs e.value, p.resolveString, p.methodFromStr, p.methodDefaultFor⟩
          D1.definition :=
    parse_named_lookup_some p e.value D1 hD1
  have hlevel2 : parse_named p e.value
      = parse_definition
          ⟨removeDef (removeDef p.defs e.value) e1.value, p.resolveString, p.methodFromStr,
            p.methodDefaultFor⟩
          D2.definition := by
    rw [hlevel1, hD1def, parse_definition, parse_expr, parse_atom, if_pos hsel1]
    exact parse_named_lookup_some
      ⟨removeDef p.defs e.value, p.resolveString, p.methodFromStr, p.methodDefaultFor⟩
      e1.value D2 hD2
  refine ⟨h1, ?_, ?_, hlevel1, hlevel2⟩
  · rw [parse_atom, if_pos hsel2, hval2, h1]
  · rcases hflag with h | h | h | h | h <;> simp [selector_inheritance_warns, h]

/-- Witness for C2: `union: [model_a, exclude: [model_b]]` with the
demo fixture parser parses to the `And`/`Exclude` tree and evaluates
to the set difference. -/
theorem c2_union_exclude_composition_witness :
    parse_definition demoParser (.Str "model_a") = .ok (fqnAtom "model_a")
    ∧ ((∃ include_expr combined,
          SelectExpression.And [.Or [fqnAtom "x"], .Exclude (fqnAtom "y")]
            = .And [include_expr, .Exclude combined])
      ∧ parse_composite demoParser
          ⟨[("union", .Union [.Str "model_a", .Full (.Atom (.Exclude ⟨[.Str "model_b"]⟩))])]⟩
          = .ok (.And [.Or [fqnAtom "model_a"], .Exclude (fqnAtom "model_b")])
      ∧ evaluate_select_expression
          (.And [.Or [fqnAtom "model_a"], .Exclude (fqnAtom "model_b")]) testNodes
          = evaluate_select_expression (fqnAtom "model_a") testNodes
              \ evaluate_select_expression (fqnAtom "model_b") testNodes) :=
  ⟨by rw [parse_definition]; rfl,
   c2_union_exclude_composition demoParser "union" "union"
     (.Union [.Str "x", .Full (.Atom (.Exclude ⟨[.Str "y"]⟩))]) [] []
     (.And [.Or [fqnAtom "x"], .Exclude (fqnAtom "y")])
     (.Str "model_a") (.Str "model_b") (fqnAtom "model_a") (fqnAtom "model_b") testNodes
     (by decide)
     (by simp [parse_composite, parse_values, collect_definition_includes, parse_definition,
       exclude_expression_of, composite_result, demoParser, demoResolveString, fqnAtom,
       Bind.bind, Except.bind])
     (by decide)
     (by rw [parse_definition]; rfl)
     (by rw [parse_definition]; rfl)⟩

/-- Witness for C7: `intersection: [a0, exclude: [b0], exclude: [c0]]`
with the demo fixture parser. -/
theorem c7_multiple_excludes_union_of_removals_witness :
    parse_definition demoParser (.Str "a0") = .ok (fqnAtom "a0")
    ∧ (parse_composite demoParser
        ⟨[("intersection", .Intersection
            [.Str "a0", .Full (.Atom (.Exclude ⟨[.Str "b0"]⟩)),
              .Full (.Atom (.Exclude ⟨[.Str "c0"]⟩))])]⟩
        = .ok (.And [.And [fqnAtom "a0"], .Exclude (.Or [fqnAtom "b0", fqnAtom "c0"])])
      ∧ evaluate_select_expression
          (.And [.And [fqnAtom "a0"], .Exclude (.Or [fqnAtom "b0", fqnAtom "c0"])]) testNodes
          = evaluate_select_expression (fqnAtom "a0") testNodes
              \ (evaluate_select_expression (fqnAtom "b0") testNodes
                  ∪ evaluate_select_expression (fqnAtom "c0") testNodes)) :=
  ⟨by rw [parse_definition]; rfl,
   c7_multiple_excludes_union_of_removals demoParser "intersection" []
     (.Str "a0") (.Str "b0") (.Str "c0") (fqnAtom "a0") (fqnAtom "b0") (fqnAtom "c0") testNodes
     (by decide)
     (by rw [parse_definition]; rfl)
     (by rw [parse_definition]; rfl)
     (by rw [parse_definition]; rfl)⟩

/-- Witness for C5 (amended) at a concrete empty exclude block inside a
union composite and a concrete `tag:nightly` atom carrying
`exclude: []`. -/
theorem c5_empty_exclude_handling_witness :
    (("tag" : String) ≠ "selector")
    ∧ (parse_composite demoParser
        ⟨[("union", .Union [.Full (.Atom (.Exclude ⟨[]⟩)), .Str "rest"])]⟩
        = .error (.selectorError "Empty exclude list")
      ∧ parse_composite demoParser
          ⟨[("union", .Intersection [.Full (.Atom (.Exclude ⟨[]⟩)), .Str "rest"])]⟩
          = .error (.selectorError "Empty exclude list")
      ∧ (∀ (op : CompositeKind) (r : SelectExpression),
          (SelectorDefinitionValue.Full (.Atom (.Exclude ⟨[]⟩)))
            ∈ (match op with | .Union vs => vs | .Intersection vs => vs) →
          parse_composite demoParser ⟨[("union", op)]⟩ ≠ .ok r)
      ∧ ∃ crit : SelectionCriteria,
          parse_atom demoParser
              (.Method ⟨"tag", "nightly", false, false, false, none, none, none, some []⟩)
            = .ok (.Atom crit) ∧ crit.exclude = none) :=
  ⟨by decide,
   c5_empty_exclude_handling demoParser "union" [] [.Str "rest"]
     ⟨"tag", "nightly", false, false, false, none, none, none, some []⟩
     (by decide) rfl⟩

/-- Witness for C9 at the two-level registry fixture: the reference
atom carries a graph flag and an attached exclude list, both ignored;
the warning predicate fires; inheritance chains through both levels. -/
theorem c9_selector_inheritance_identity_witness :
    lookupDef c9Parser.defs "level1" = some c9Mid
    ∧ (parse_atom c9Parser (.Method c9RefAtom) = parse_named c9Parser "level1"
      ∧ parse_atom c9Parser (.Method c9RefAtomPlain) = parse_atom c9Parser (.Method c9RefAtom)
      ∧ selector_inheritance_warns c9RefAtom = true
      ∧ parse_named c9Parser "level1"
          = parse_definition
              ⟨removeDef c9Parser.defs "level1", c9Parser.resolveString, c9Parser.methodFromStr,
                c9Parser.methodDefaultFor⟩
              c9Mid.definition
      ∧ parse_named c9Parser "level1"
          = parse_definition
              ⟨removeDef (removeDef c9Parser.defs "level1") "level2", c9Parser.resolveString,
                c9Parser.methodFromStr, c9Parser.methodDefaultFor⟩
              c9Base.definition) :=
  ⟨rfl,
   c9_selector_inheritance_identity c9Parser c9RefAtom c9RefAtomPlain c9MidAtom c9Mid c9Base
     rfl rfl rfl (Or.inl rfl) rfl rfl rfl rfl⟩

end DbtSelector
